import Mathlib

/-!
Verification development for the zlaunch repository.

The repository's clipboard history engine (src/clipboard/item.rs, data.rs,
monitor.rs) is declared by src/clipboard/mod.rs but its code is not in the
source tree; the History Store and Persistence Adapter below are therefore
modelled from the specification's words (sections 3, 4.2, 4.4, 6 of spec.md).
The configuration types (src/config/types.rs), the configuration validation
(src/config/validation.rs) and the AI response view (src/ui/views/ai_view.rs)
are embedded directly from the Rust source.
-/

namespace ZLaunch

/-- Modelled from the spec: ClipboardContent, the tagged clipboard payload
(src/clipboard/item.rs is missing from the tree). Exactly one case is active
per instance: Text, Image (raw bytes plus decoded metadata) or Files. -/
inductive ClipboardContent where
  | text (s : String)
  | image (bytes : List Nat) (width height : Nat) (format : String)
  | files (paths : List String)
deriving DecidableEq, Repr

/-- Modelled from the spec: the digest type. The spec stipulates that the
digest is a pure function of the content, that the same logical content
always yields the same digest and that distinct variants never collide
(a variant discriminator is hashed in), and that equality of two contents
is defined as equality of their digests. A collision-free digest is thus an
injection from contents; we model it by the content itself. -/
abbrev Digest : Type := ClipboardContent

/-- Modelled from the spec: hash_of, the pure collision-free digest of a
clipboard content. -/
def hashOf (c : ClipboardContent) : Digest := c

/-- Modelled from the spec: ClipboardItem (src/clipboard/item.rs is missing
from the tree): id, content, precomputed content hash, creation and
last-seen timestamps, pin flag. -/
structure ClipboardItem where
  id : Nat
  content : ClipboardContent
  contentHash : Digest
  createdAt : Nat
  lastSeenAt : Nat
  pinned : Bool
deriving DecidableEq, Repr

/-- Modelled from the spec: ClipboardHistory, owned by the Store: entries
ordered most-recently-used first, a capacity bound on non-pinned entries,
and the next id to allocate (ids are monotonically increasing). The hash
index is maintained in lock-step with entries in the spec; here it is the
derived lookup over entries. -/
structure ClipboardHistory where
  entries : List ClipboardItem
  capacity : Nat
  nextId : Nat
deriving DecidableEq, Repr

/-- Empty history with a given capacity; ids start at 1. -/
def emptyHistory (cap : Nat) : ClipboardHistory :=
  { entries := [], capacity := cap, nextId := 1 }

/-- Derived hash index of the spec: a hash is in the index exactly when some
entry carries it. -/
def inIndex (h : ClipboardHistory) (d : Digest) : Bool :=
  h.entries.any (fun e => e.contentHash == d)

/-- Bump the last-seen timestamp of an item, leaving every other field
unchanged. -/
def touchItem (e : ClipboardItem) (now : Nat) : ClipboardItem :=
  { e with lastSeenAt := now }

/-- Erase the first element satisfying p, keeping the rest in order. -/
def eraseFirstBy (p : ClipboardItem → Bool) : List ClipboardItem → List ClipboardItem
  | [] => []
  | x :: xs => if p x then xs else x :: eraseFirstBy p xs

/-- Remove the first non-pinned element of a list. -/
def removeFirstUnpinned : List ClipboardItem → List ClipboardItem
  | [] => []
  | x :: xs => if x.pinned then x :: removeFirstUnpinned xs else xs

/-- Modelled from the spec: eviction removes the least-recently-used
non-pinned entry, i.e. the last non-pinned entry of the MRU-first list. -/
def removeLastUnpinned (l : List ClipboardItem) : List ClipboardItem :=
  (removeFirstUnpinned l.reverse).reverse

/-- Number of non-pinned entries. -/
def countUnpinned (l : List ClipboardItem) : Nat :=
  l.countP (fun e => !e.pinned)

/-- Freshly created item for a content first observed at time now: fresh id,
precomputed hash, both timestamps set to now, not pinned. -/
def newItem (h : ClipboardHistory) (c : ClipboardContent) (now : Nat) :
    ClipboardItem :=
  { id := h.nextId, content := c, contentHash := hashOf c,
    createdAt := now, lastSeenAt := now, pinned := false }

/-- Modelled from the spec: insert_or_touch (section 4.2). Computes the
content hash; if an entry with that hash exists, moves it to the front,
bumps last_seen_at and returns its id; otherwise creates a new item at the
front with a fresh id, then, if the non-pinned entry count exceeds capacity,
evicts the last non-pinned entry. Returns the item id and the new history. -/
def insertOrTouch (h : ClipboardHistory) (c : ClipboardContent) (now : Nat) :
    Nat × ClipboardHistory :=
  match h.entries.find? (fun e => e.contentHash == hashOf c) with
  | some e =>
      (e.id, { h with
        entries := touchItem e now ::
          eraseFirstBy (fun x => x.contentHash == hashOf c) h.entries })
  | none =>
      (h.nextId, { h with
        entries :=
          if h.capacity < countUnpinned (newItem h c now :: h.entries) then
            removeLastUnpinned (newItem h c now :: h.entries)
          else newItem h c now :: h.entries,
        nextId := h.nextId + 1 })

/-- Modelled from the spec: pin(id). Sets the pin flag of the matching entry
without changing ordering; returns false when the id is unknown. -/
def pinItem (h : ClipboardHistory) (i : Nat) : Bool × ClipboardHistory :=
  if h.entries.any (fun e => e.id == i) then
    (true, { h with
      entries := h.entries.map
        (fun e => if e.id == i then { e with pinned := true } else e) })
  else (false, h)

/-- Modelled from the spec: unpin(id). Clears the pin flag of the matching
entry without changing ordering; returns false when the id is unknown. -/
def unpinItem (h : ClipboardHistory) (i : Nat) : Bool × ClipboardHistory :=
  if h.entries.any (fun e => e.id == i) then
    (true, { h with
      entries := h.entries.map
        (fun e => if e.id == i then { e with pinned := false } else e) })
  else (false, h)

/-- Modelled from the spec: remove(id). Deletes the matching entry from the
entries (and hence from the derived index) regardless of its pin state;
returns false when the id is unknown. -/
def removeItem (h : ClipboardHistory) (i : Nat) : Bool × ClipboardHistory :=
  if h.entries.any (fun e => e.id == i) then
    (true, { h with entries := h.entries.filter (fun e => !(e.id == i)) })
  else (false, h)

/-- Modelled from the spec: clear_unpinned(). Removes all non-pinned
entries; pinned entries survive. -/
def clearUnpinned (h : ClipboardHistory) : ClipboardHistory :=
  { h with entries := h.entries.filter (fun e => e.pinned) }

/-- Fold a sequence of insert_or_touch calls (content and observation time)
over a history. -/
def applyInserts (h : ClipboardHistory) :
    List (ClipboardContent × Nat) → ClipboardHistory
  | [] => h
  | (c, t) :: rest => applyInserts (insertOrTouch h c t).2 rest

/-- Dedup property of a history: no two entries share a content hash. -/
def HashesNodup (h : ClipboardHistory) : Prop :=
  (h.entries.map (fun e => e.contentHash)).Nodup

lemma map_touch_perm {α : Type} (f : ClipboardItem → α) (p : ClipboardItem → Bool)
    (l : List ClipboardItem) (e e' : ClipboardItem) (hf : l.find? p = some e)
    (hfe : f e' = f e) :
    ((e' :: eraseFirstBy p l).map f).Perm (l.map f) := by
  induction l with
  | nil => simp [List.find?] at hf
  | cons x xs ih =>
    cases hx : p x with
    | true =>
      rw [List.find?_cons_of_pos _ hx] at hf
      cases hf
      simp only [eraseFirstBy, hx, if_pos, List.map_cons, hfe]
      exact List.Perm.refl _
    | false =>
      rw [List.find?_cons_of_neg _ (by simp [hx])] at hf
      simp only [eraseFirstBy, hx, Bool.false_eq_true, if_neg, List.map_cons,
        not_false_eq_true]
      exact (List.Perm.swap _ _ _).trans ((ih hf).cons _)

lemma removeFirstUnpinned_sublist (l : List ClipboardItem) :
    (removeFirstUnpinned l).Sublist l := by
  induction l with
  | nil => exact List.Sublist.refl _
  | cons x xs ih =>
    by_cases hx : x.pinned
    · simp only [removeFirstUnpinned, hx, if_pos]
      exact ih.cons₂ x
    · simp only [removeFirstUnpinned, hx, if_neg, Bool.false_eq_true,
        not_false_eq_true]
      exact (List.Sublist.refl xs).cons x

lemma removeLastUnpinned_sublist (l : List ClipboardItem) :
    (removeLastUnpinned l).Sublist l := by
  have h := (removeFirstUnpinned_sublist l.reverse).reverse
  simpa [removeLastUnpinned] using h

lemma insertOrTouch_hashesNodup (h : ClipboardHistory) (c : ClipboardContent)
    (now : Nat) (hn : HashesNodup h) : HashesNodup (insertOrTouch h c now).2 := by
  unfold HashesNodup at hn ⊢
  unfold insertOrTouch
  cases hfind : h.entries.find? (fun e => e.contentHash == hashOf c) with
  | some e =>
    simp only [hfind]
    exact ((map_touch_perm (fun e => e.contentHash) _ h.entries e
      (touchItem e now) hfind rfl).nodup_iff).mpr hn
  | none =>
    simp only [hfind]
    have hnotin : hashOf c ∉ h.entries.map (fun e => e.contentHash) := by
      intro hmem
      rcases List.mem_map.mp hmem with ⟨x, hx, hxh⟩
      have := List.find?_eq_none.mp hfind x hx
      simp [hxh] at this
    have hgrown :
        ((newItem h c now :: h.entries).map (fun e => e.contentHash)).Nodup := by
      simp only [List.map_cons, List.nodup_cons]
      exact ⟨by simpa [newItem] using hnotin, hn⟩
    by_cases hcap : h.capacity < countUnpinned (newItem h c now :: h.entries)
    · rw [if_pos hcap]
      exact ((removeLastUnpinned_sublist _).map _).nodup hgrown
    · rw [if_neg hcap]
      exact hgrown

lemma applyInserts_hashesNodup (h : ClipboardHistory)
    (ops : List (ClipboardContent × Nat)) (hn : HashesNodup h) :
    HashesNodup (applyInserts h ops) := by
  induction ops generalizing h with
  | nil => exact hn
  | cons op rest ih =>
    exact ih _ (insertOrTouch_hashesNodup h op.1 op.2 hn)

/-- C1: for every sequence of insert_or_touch calls applied to an initially
empty History Store, at every point in the sequence (every prefix is itself
such a sequence) no two entries of the store share a content hash. -/
theorem c1_dedup_invariant (cap : Nat) (ops : List (ClipboardContent × Nat)) :
    HashesNodup (applyInserts (emptyHistory cap) ops) :=
  applyInserts_hashesNodup _ ops (by simp [HashesNodup, emptyHistory])

/-- Witness for c1_dedup_invariant at a concrete sequence: inserting "a",
"a" again and "b" into the empty store with capacity 2 leaves no duplicate
hashes. -/
theorem c1_dedup_invariant_witness :
    HashesNodup (applyInserts (emptyHistory 2)
      [(ClipboardContent.text "a", 1), (ClipboardContent.text "a", 2),
       (ClipboardContent.text "b", 3)]) :=
  c1_dedup_invariant 2
    [(ClipboardContent.text "a", 1), (ClipboardContent.text "a", 2),
     (ClipboardContent.text "b", 3)]

/-- Number of pinned entries. -/
def pinnedCount (l : List ClipboardItem) : Nat :=
  l.countP (fun e => e.pinned)

lemma pinnedCount_add_countUnpinned (l : List ClipboardItem) :
    pinnedCount l + countUnpinned l = l.length := by
  induction l with
  | nil => rfl
  | cons x xs ih =>
    by_cases hx : x.pinned <;>
      simp only [pinnedCount, countUnpinned, List.countP_cons, hx,
        List.length_cons] at ih ⊢ <;>
      simp [hx] <;> omega

lemma length_sub_pinnedCount (l : List ClipboardItem) :
    l.length - pinnedCount l = countUnpinned l := by
  have h := pinnedCount_add_countUnpinned l
  omega

lemma countP_eq_count_map (q : ClipboardItem → Bool) (l : List ClipboardItem) :
    l.countP q = (l.map q).count true := by
  induction l with
  | nil => rfl
  | cons x xs ih =>
    cases hx : q x <;> simp [List.countP_cons, List.count_cons, hx, ih]

lemma countUnpinned_touch (p : ClipboardItem → Bool) (l : List ClipboardItem)
    (e : ClipboardItem) (now : Nat) (hf : l.find? p = some e) :
    countUnpinned (touchItem e now :: eraseFirstBy p l) = countUnpinned l := by
  have hperm := map_touch_perm (fun e => !e.pinned) p l e (touchItem e now) hf rfl
  have h1 := hperm.count_eq true
  rw [countUnpinned, countUnpinned, countP_eq_count_map, countP_eq_count_map]
  exact h1

lemma countUnpinned_removeFirstUnpinned (l : List ClipboardItem)
    (hx : ∃ x ∈ l, x.pinned = false) :
    countUnpinned (removeFirstUnpinned l) + 1 = countUnpinned l := by
  induction l with
  | nil => simp at hx
  | cons x xs ih =>
    cases hp : x.pinned with
    | true =>
      have hxs : ∃ y ∈ xs, y.pinned = false := by
        rcases hx with ⟨y, hy, hyp⟩
        rcases List.mem_cons.mp hy with rfl | hy'
        · rw [hp] at hyp; cases hyp
        · exact ⟨y, hy', hyp⟩
      have ih' := ih hxs
      simp only [removeFirstUnpinned, hp, if_pos, countUnpinned,
        List.countP_cons, hp] at ih' ⊢
      simp only [Bool.not_true, Bool.false_eq_true, if_neg, not_false_eq_true]
      omega
    | false =>
      simp [removeFirstUnpinned, hp, countUnpinned, List.countP_cons]

lemma countUnpinned_reverse (l : List ClipboardItem) :
    countUnpinned l.reverse = countUnpinned l := by
  simp [countUnpinned]

lemma countUnpinned_removeLastUnpinned (l : List ClipboardItem)
    (hx : ∃ x ∈ l, x.pinned = false) :
    countUnpinned (removeLastUnpinned l) + 1 = countUnpinned l := by
  have hrev : ∃ x ∈ l.reverse, x.pinned = false := by
    rcases hx with ⟨y, hy, hyp⟩
    exact ⟨y, List.mem_reverse.mpr hy, hyp⟩
  have := countUnpinned_removeFirstUnpinned l.reverse hrev
  simpa [removeLastUnpinned, countUnpinned_reverse] using this

lemma insertOrTouch_capacity_eq (h : ClipboardHistory) (c : ClipboardContent)
    (now : Nat) : (insertOrTouch h c now).2.capacity = h.capacity := by
  unfold insertOrTouch
  cases hfind : h.entries.find? (fun e => e.contentHash == hashOf c) <;> rfl

lemma insertOrTouch_countUnpinned_le (h : ClipboardHistory)
    (c : ClipboardContent) (now : Nat)
    (hinv : countUnpinned h.entries ≤ h.capacity) :
    countUnpinned (insertOrTouch h c now).2.entries ≤ h.capacity := by
  unfold insertOrTouch
  cases hfind : h.entries.find? (fun e => e.contentHash == hashOf c) with
  | some e =>
    simpa [countUnpinned_touch _ _ _ _ hfind] using hinv
  | none =>
    simp only [hfind]
    by_cases hcap : h.capacity < countUnpinned (newItem h c now :: h.entries)
    · rw [if_pos hcap]
      have hwit : ∃ x ∈ newItem h c now :: h.entries, x.pinned = false :=
        ⟨newItem h c now, List.mem_cons_self _ _, rfl⟩
      have := countUnpinned_removeLastUnpinned _ hwit
      have hgrown : countUnpinned (newItem h c now :: h.entries) =
          countUnpinned h.entries + 1 := by
        simp [countUnpinned, List.countP_cons, newItem]
      omega
    · rw [if_neg hcap]
      omega

/-- C2 (amended): the capacity bound entries.len() - pinned_count <= capacity
is preserved by insert_or_touch: after an insert_or_touch on any store that
already satisfies it, it still holds. (As stated over all states reachable
by the store operations the claim fails: unpin can push the non-pinned count
above capacity and a single insertion evicts at most one entry.) -/
theorem c2_capacity_preserved (h : ClipboardHistory) (c : ClipboardContent)
    (now : Nat)
    (hinv : h.entries.length - pinnedCount h.entries ≤ h.capacity) :
    (insertOrTouch h c now).2.entries.length -
      pinnedCount (insertOrTouch h c now).2.entries ≤
      (insertOrTouch h c now).2.capacity := by
  rw [length_sub_pinnedCount] at hinv ⊢
  rw [insertOrTouch_capacity_eq]
  exact insertOrTouch_countUnpinned_le h c now hinv

/-- Witness for c2_capacity_preserved at a concrete store and insertion. -/
theorem c2_capacity_preserved_witness :
    (emptyHistory 1).entries.length - pinnedCount (emptyHistory 1).entries ≤
        (emptyHistory 1).capacity ∧
      (insertOrTouch (emptyHistory 1) (ClipboardContent.text "a") 1).2.entries.length -
        pinnedCount (insertOrTouch (emptyHistory 1)
          (ClipboardContent.text "a") 1).2.entries ≤
        (insertOrTouch (emptyHistory 1) (ClipboardContent.text "a") 1).2.capacity :=
  ⟨by decide, c2_capacity_preserved (emptyHistory 1) (ClipboardContent.text "a") 1
    (by decide)⟩

/-- Store state reached from the empty store with capacity 1 by the operation
sequence: insert "a", pin it, insert "b", pin it, insert "c", unpin ids 1 and
2, leaving three non-pinned entries with capacity 1. -/
def c2BadStore : ClipboardHistory :=
  let h1 := (insertOrTouch (emptyHistory 1) (ClipboardContent.text "a") 1).2
  let h2 := (pinItem h1 1).2
  let h3 := (insertOrTouch h2 (ClipboardContent.text "b") 2).2
  let h4 := (pinItem h3 2).2
  let h5 := (insertOrTouch h4 (ClipboardContent.text "c") 3).2
  let h6 := (unpinItem h5 1).2
  (unpinItem h6 2).2

/-- C2 counterexample: c2BadStore is reachable by the store operations, yet
immediately after a further insert_or_touch the store has three entries,
none pinned, with capacity 1, violating entries.len() - pinned_count <=
capacity: a single insertion evicts at most one entry and cannot restore
the bound after unpins broke it. -/
theorem c2_capacity_counterexample :
    ¬ ((insertOrTouch c2BadStore (ClipboardContent.text "d") 4).2.entries.length -
        pinnedCount (insertOrTouch c2BadStore
          (ClipboardContent.text "d") 4).2.entries ≤
        (insertOrTouch c2BadStore (ClipboardContent.text "d") 4).2.capacity) := by
  decide

lemma length_eraseFirstBy (p : ClipboardItem → Bool) (l : List ClipboardItem)
    (e : ClipboardItem) (hf : l.find? p = some e) :
    (eraseFirstBy p l).length + 1 = l.length := by
  induction l with
  | nil => simp [List.find?] at hf
  | cons x xs ih =>
    cases hx : p x with
    | true => simp [eraseFirstBy, hx]
    | false =>
      rw [List.find?_cons_of_neg _ (by simp [hx])] at hf
      simp only [eraseFirstBy, hx, Bool.false_eq_true, if_neg,
        not_false_eq_true, List.length_cons]
      rw [← ih hf]

lemma eraseFirstBy_sublist (p : ClipboardItem → Bool) (l : List ClipboardItem) :
    (eraseFirstBy p l).Sublist l := by
  induction l with
  | nil => exact List.Sublist.refl _
  | cons x xs ih =>
    cases hx : p x with
    | true =>
      simp only [eraseFirstBy, hx, if_pos]
      exact (List.Sublist.refl xs).cons x
    | false =>
      simp only [eraseFirstBy, hx, Bool.false_eq_true, if_neg,
        not_false_eq_true]
      exact ih.cons₂ x

/-- C3: touch-on-duplicate. When the index already contains the hash of the
inserted content (the first entry with that hash being e), insert_or_touch
creates no new entry: it returns e's existing id, keeps entries.len()
unchanged, moves e to the front with only last_seen_at updated (the head of
the new entries is e with lastSeenAt := now, so id, content, content_hash,
created_at and pinned are unchanged), and the remaining entries are the old
entries with that one occurrence of e removed, in their old order. -/
theorem c3_touch_on_duplicate (h : ClipboardHistory) (c : ClipboardContent)
    (now : Nat) (e : ClipboardItem)
    (hfind : h.entries.find? (fun x => x.contentHash == hashOf c) = some e) :
    e ∈ h.entries ∧ e.contentHash = hashOf c ∧
    (insertOrTouch h c now).1 = e.id ∧
    (insertOrTouch h c now).2.entries.length = h.entries.length ∧
    (insertOrTouch h c now).2.entries =
      { e with lastSeenAt := now } ::
        eraseFirstBy (fun x => x.contentHash == hashOf c) h.entries ∧
    (eraseFirstBy (fun x => x.contentHash == hashOf c) h.entries).Sublist
      h.entries ∧
    (insertOrTouch h c now).2.nextId = h.nextId ∧
    (insertOrTouch h c now).2.capacity = h.capacity := by
  have hmem : e ∈ h.entries := List.mem_of_find?_eq_some hfind
  have hpe : e.contentHash = hashOf c := by
    have := List.find?_some hfind
    simpa using this
  refine ⟨hmem, hpe, ?_, ?_, ?_, eraseFirstBy_sublist _ _, ?_, ?_⟩ <;>
    unfold insertOrTouch <;> simp only [hfind]
  · rw [← length_eraseFirstBy _ _ _ hfind]
    simp
  · rfl

/-- Witness store for c3: the empty store with capacity 5 after inserting
the text "a" at time 1; it holds the single item with id 1. -/
def c3Store : ClipboardHistory :=
  (insertOrTouch (emptyHistory 5) (ClipboardContent.text "a") 1).2

/-- The single item of c3Store. -/
def c3Entry : ClipboardItem :=
  { id := 1, content := ClipboardContent.text "a",
    contentHash := ClipboardContent.text "a",
    createdAt := 1, lastSeenAt := 1, pinned := false }

/-- Witness for c3_touch_on_duplicate: re-inserting "a" into c3Store returns
the existing id 1 and leaves the entry count unchanged. -/
theorem c3_touch_on_duplicate_witness :
    (insertOrTouch c3Store (ClipboardContent.text "a") 2).1 = 1 ∧
    (insertOrTouch c3Store (ClipboardContent.text "a") 2).2.entries.length =
      c3Store.entries.length := by
  have h := c3_touch_on_duplicate c3Store (ClipboardContent.text "a") 2 c3Entry
    (by decide)
  exact ⟨h.2.2.1.trans rfl, h.2.2.2.1⟩

lemma mem_eraseFirstBy_or (p : ClipboardItem → Bool) (l : List ClipboardItem)
    (e0 e : ClipboardItem) (hf : l.find? p = some e0) (he : e ∈ l) :
    e ∈ eraseFirstBy p l ∨ e = e0 := by
  induction l with
  | nil => simp at he
  | cons x xs ih =>
    cases hx : p x with
    | true =>
      rw [List.find?_cons_of_pos _ hx] at hf
      cases hf
      simp only [eraseFirstBy, hx, if_pos]
      rcases List.mem_cons.mp he with rfl | he'
      · exact Or.inr rfl
      · exact Or.inl he'
    | false =>
      rw [List.find?_cons_of_neg _ (by simp [hx])] at hf
      simp only [eraseFirstBy, hx, Bool.false_eq_true, if_neg,
        not_false_eq_true]
      rcases List.mem_cons.mp he with rfl | he'
      · exact Or.inl (List.mem_cons_self _ _)
      · rcases ih hf he' with h1 | h1
        · exact Or.inl (List.mem_cons_of_mem _ h1)
        · exact Or.inr h1

lemma mem_removeFirstUnpinned (l : List ClipboardItem) (e : ClipboardItem)
    (he : e ∈ l) (hp : e.pinned = true) : e ∈ removeFirstUnpinned l := by
  induction l with
  | nil => simp at he
  | cons x xs ih =>
    by_cases hx : x.pinned
    · simp only [removeFirstUnpinned, hx, if_pos]
      rcases List.mem_cons.mp he with rfl | he'
      · exact List.mem_cons_self _ _
      · exact List.mem_cons_of_mem _ (ih he')
    · simp only [removeFirstUnpinned, hx, if_neg, not_false_eq_true]
      rcases List.mem_cons.mp he with rfl | he'
      · exact absurd hp hx
      · exact he'

lemma mem_removeLastUnpinned (l : List ClipboardItem) (e : ClipboardItem)
    (he : e ∈ l) (hp : e.pinned = true) : e ∈ removeLastUnpinned l := by
  unfold removeLastUnpinned
  rw [List.mem_reverse]
  exact mem_removeFirstUnpinned _ _ (List.mem_reverse.mpr he) hp

lemma countUnpinned_eq_zero (l : List ClipboardItem)
    (hall : ∀ e ∈ l, e.pinned = true) : countUnpinned l = 0 := by
  unfold countUnpinned
  rw [List.countP_eq_zero]
  intro a ha
  simp [hall a ha]

/-- C4 (amended): pinned items are never removed by insert_or_touch-
triggered eviction. Every pinned entry of the store survives an
insert_or_touch call (same id, content and pin flag); if all entries are
pinned, the content is new and the capacity is at least 1, the insertion
still succeeds: the new item is simply placed in front of all pinned
entries, and when the store already held at least capacity-many entries
the capacity is temporarily exceeded. (At capacity 0 the just-inserted
non-pinned item is itself the eviction victim, so the capacity-at-least-1
qualification is necessary.) A pinned entry also survives clear_unpinned;
only an explicit remove (or eviction made possible by a prior unpin)
deletes it. -/
theorem c4_pinned_never_evicted (h : ClipboardHistory) (c : ClipboardContent)
    (now : Nat) :
    (∀ e ∈ h.entries, e.pinned = true →
      ∃ e' ∈ (insertOrTouch h c now).2.entries,
        e'.id = e.id ∧ e'.content = e.content ∧ e'.pinned = true) ∧
    (h.entries.find? (fun x => x.contentHash == hashOf c) = none →
      (∀ e ∈ h.entries, e.pinned = true) → 1 ≤ h.capacity →
      (insertOrTouch h c now).2.entries = newItem h c now :: h.entries ∧
      (h.capacity ≤ h.entries.length →
        h.capacity < (insertOrTouch h c now).2.entries.length)) ∧
    (∀ e ∈ h.entries, e.pinned = true → e ∈ (clearUnpinned h).entries) := by
  refine ⟨?_, ?_, ?_⟩
  · intro e he hp
    unfold insertOrTouch
    cases hfind : h.entries.find? (fun x => x.contentHash == hashOf c) with
    | some e0 =>
      simp only [hfind]
      rcases mem_eraseFirstBy_or _ _ e0 e hfind he with h1 | rfl
      · exact ⟨e, List.mem_cons_of_mem _ h1, rfl, rfl, hp⟩
      · exact ⟨touchItem e now, List.mem_cons_self _ _, rfl, rfl, hp⟩
    | none =>
      simp only [hfind]
      by_cases hcap : h.capacity < countUnpinned (newItem h c now :: h.entries)
      · rw [if_pos hcap]
        exact ⟨e, mem_removeLastUnpinned _ _ (List.mem_cons_of_mem _ he) hp,
          rfl, rfl, hp⟩
      · rw [if_neg hcap]
        exact ⟨e, List.mem_cons_of_mem _ he, rfl, rfl, hp⟩
  · intro hfind hall hcap1
    have hzero : countUnpinned h.entries = 0 :=
      countUnpinned_eq_zero h.entries hall
    have hcount : countUnpinned (newItem h c now :: h.entries) = 1 := by
      simp only [countUnpinned, List.countP_cons, newItem] at hzero ⊢
      simp [hzero]
    have hnolt : ¬ h.capacity < countUnpinned (newItem h c now :: h.entries) := by
      omega
    have hentries : (insertOrTouch h c now).2.entries =
        newItem h c now :: h.entries := by
      unfold insertOrTouch
      simp only [hfind]
      rw [if_neg hnolt]
    refine ⟨hentries, ?_⟩
    intro hle
    rw [hentries]
    simp only [List.length_cons]
    omega
  · intro e he hp
    unfold clearUnpinned
    exact List.mem_filter.mpr ⟨he, hp⟩

/-- Store holding the single pinned item with id 1 (content "a"), capacity 5. -/
def c4Store : ClipboardHistory := (pinItem c3Store 1).2

/-- Witness for c4_pinned_never_evicted: inserting "b" into c4Store, whose
only entry (id 1) is pinned, keeps that pinned entry and places the new item
in front of it. -/
theorem c4_pinned_never_evicted_witness :
    (insertOrTouch c4Store (ClipboardContent.text "b") 2).2.entries =
      newItem c4Store (ClipboardContent.text "b") 2 :: c4Store.entries ∧
    (∃ e' ∈ (insertOrTouch c4Store (ClipboardContent.text "b") 2).2.entries,
      e'.id = 1 ∧ e'.content = ClipboardContent.text "a" ∧ e'.pinned = true) := by
  have H := c4_pinned_never_evicted c4Store (ClipboardContent.text "b") 2
  refine ⟨(H.2.1 (by decide) (by decide) (by decide)).1, ?_⟩
  have h2 := H.1
    { id := 1, content := ClipboardContent.text "a",
      contentHash := ClipboardContent.text "a",
      createdAt := 1, lastSeenAt := 1, pinned := true }
    (by decide) rfl
  simpa using h2

/-- Modelled from the spec: the capacity is sourced from configuration
external to the core (section 6) and the section-8 scenarios change it
mid-session ("set capacity=1 and insert", "set capacity=0 and insert");
setting it leaves the entries untouched. -/
def setCapacity (h : ClipboardHistory) (cap : Nat) : ClipboardHistory :=
  { h with capacity := cap }

/-- Store state reached from the empty store with capacity 1 by inserting
"a", pinning it, then setting the capacity to 0: a single pinned entry with
capacity 0, the section-8 pinned scenario. -/
def c4BadStore : ClipboardHistory :=
  let h1 := (insertOrTouch (emptyHistory 1) (ClipboardContent.text "a") 1).2
  let h2 := (pinItem h1 1).2
  setCapacity h2 0

/-- C4 counterexample: in c4BadStore every entry is pinned and the capacity
is 0, yet inserting the new content "b" leaves the entries unchanged: the
freshly created non-pinned item is itself the least-recently-used
non-pinned entry, so the eviction step of the literal section-4.2 rule
removes it at once. The pinned entry survives, but the new content does not
remain, so the insertion does not succeed with capacity temporarily
exceeded as the claim states. -/
theorem c4_capacity_zero_counterexample :
    (∀ e ∈ c4BadStore.entries, e.pinned = true) ∧
    (insertOrTouch c4BadStore (ClipboardContent.text "b") 2).2.entries =
      c4BadStore.entries ∧
    ¬ (∃ e ∈ (insertOrTouch c4BadStore (ClipboardContent.text "b") 2).2.entries,
        e.content = ClipboardContent.text "b") := by
  decide

/-- C7: unknown-id handling. For an id carried by no entry, pin, unpin and
remove each return false and leave the store unchanged. For an id that is
present, each returns true; pin and unpin keep the sequence of entry ids
(hence the ordering) unchanged, set respectively clear the pin flag of the
matching entry, and leave every other entry untouched; remove deletes the
matching entry from the entries (and hence from the derived index)
regardless of its pin state. -/
theorem c7_unknown_id (h : ClipboardHistory) (i : Nat) :
    ((∀ e ∈ h.entries, e.id ≠ i) →
      pinItem h i = (false, h) ∧ unpinItem h i = (false, h) ∧
      removeItem h i = (false, h)) ∧
    ((∃ e ∈ h.entries, e.id = i) →
      (pinItem h i).1 = true ∧ (unpinItem h i).1 = true ∧
      (removeItem h i).1 = true ∧
      (pinItem h i).2.entries.map (fun e => e.id) =
        h.entries.map (fun e => e.id) ∧
      (unpinItem h i).2.entries.map (fun e => e.id) =
        h.entries.map (fun e => e.id) ∧
      (∀ e' ∈ (pinItem h i).2.entries, e'.id = i → e'.pinned = true) ∧
      (∀ e' ∈ (unpinItem h i).2.entries, e'.id = i → e'.pinned = false) ∧
      (∀ e ∈ h.entries, e.id ≠ i →
        e ∈ (pinItem h i).2.entries ∧ e ∈ (unpinItem h i).2.entries) ∧
      (∀ e, e ∈ (removeItem h i).2.entries ↔ e ∈ h.entries ∧ e.id ≠ i)) := by
  constructor
  · intro hnone
    have hany : h.entries.any (fun e => e.id == i) = false := by
      rw [List.any_eq_false]
      intro e he
      simp [hnone e he]
    refine ⟨?_, ?_, ?_⟩ <;> simp [pinItem, unpinItem, removeItem, hany]
  · rintro ⟨e, he, rfl⟩
    have hany : h.entries.any (fun x => x.id == e.id) = true :=
      List.any_eq_true.mpr ⟨e, he, by simp⟩
    refine ⟨by simp [pinItem, hany], by simp [unpinItem, hany],
      by simp [removeItem, hany], ?_, ?_, ?_, ?_, ?_, ?_⟩
    · simp only [pinItem, hany, if_pos, List.map_map]
      refine List.map_congr_left ?_
      intro x _
      by_cases hx : x.id = e.id <;> simp [hx]
    · simp only [unpinItem, hany, if_pos, List.map_map]
      refine List.map_congr_left ?_
      intro x _
      by_cases hx : x.id = e.id <;> simp [hx]
    · simp only [pinItem, hany, if_pos]
      intro e' he' hid
      rcases List.mem_map.mp he' with ⟨x, _, hx⟩
      by_cases hxe : x.id = e.id
      · rw [← hx]
        simp [hxe]
      · rw [← hx] at hid
        simp [hxe] at hid
    · simp only [unpinItem, hany, if_pos]
      intro e' he' hid
      rcases List.mem_map.mp he' with ⟨x, _, hx⟩
      by_cases hxe : x.id = e.id
      · rw [← hx]
        simp [hxe]
      · rw [← hx] at hid
        simp [hxe] at hid
    · intro x hx hxe
      constructor
      · simp only [pinItem, hany, if_pos]
        have : (if x.id == e.id then { x with pinned := true } else x) = x := by
          simp [hxe]
        exact this ▸ List.mem_map_of_mem _ hx
      · simp only [unpinItem, hany, if_pos]
        have : (if x.id == e.id then { x with pinned := false } else x) = x := by
          simp [hxe]
        exact this ▸ List.mem_map_of_mem _ hx
    · intro x
      simp [removeItem, hany, List.mem_filter]

/-- Witness for c7_unknown_id: in c3Store (one entry, id 1), pinning the
unknown id 2 returns false and leaves the store unchanged, while removing
the present id 1 returns true. -/
theorem c7_unknown_id_witness :
    pinItem c3Store 2 = (false, c3Store) ∧ (removeItem c3Store 1).1 = true := by
  have H1 := c7_unknown_id c3Store 2
  have H2 := c7_unknown_id c3Store 1
  exact ⟨(H1.1 (by decide)).1, (H2.2 ⟨c3Entry, by decide, rfl⟩).2.2.1⟩

/-! Persistence Adapter, modelled from the spec (sections 4.4 and 6): a
versioned on-disk file holding one record per retained item with the
content (size-capped for large image payloads), both timestamps and the
pin flag; ids are not persisted and are reallocated on load. A missing or
unreadable file is the none case; a truncated or corrupt individual record
is the corrupt case. -/

/-- Modelled from the spec: the schema version the loader supports. -/
def supportedSchemaVersion : Nat := 1

/-- Modelled from the spec: one on-disk record per retained item:
content_variant with its bytes, created_at, last_seen_at, pinned. -/
structure PersistedRecord where
  content : ClipboardContent
  createdAt : Nat
  lastSeenAt : Nat
  pinned : Bool
deriving DecidableEq, Repr

/-- Modelled from the spec: a raw record as read back from disk; a
truncated or corrupt record fails to decode. -/
inductive DiskRecord where
  | ok (r : PersistedRecord)
  | corrupt
deriving DecidableEq, Repr

/-- Modelled from the spec: the versioned on-disk history file. -/
structure DiskFile where
  schemaVersion : Nat
  records : List DiskRecord
deriving DecidableEq, Repr

/-- Approximate byte size of a content, used for the persisted-size cap. -/
def contentSize : ClipboardContent → Nat
  | .text s => s.utf8ByteSize
  | .image bytes _ _ _ => bytes.length
  | .files paths => (paths.map (fun p => p.utf8ByteSize)).sum

/-- Modelled from the spec: large image payloads are stored size-capped so
a single huge payload cannot make persistence unbounded; other variants are
stored as they are. -/
def persistContent (cap : Nat) : ClipboardContent → ClipboardContent
  | .image bytes w ht f =>
      if bytes.length ≤ cap then .image bytes w ht f
      else .image (bytes.take cap) w ht f
  | c => c

/-- Persisted record for one item: its content (size-capped), both
timestamps and the pin flag; the id is not persisted. -/
def encodeItem (cap : Nat) (e : ClipboardItem) : PersistedRecord :=
  { content := persistContent cap e.content, createdAt := e.createdAt,
    lastSeenAt := e.lastSeenAt, pinned := e.pinned }

/-- Modelled from the spec: save serializes the entries in order (content,
timestamps, pinned flag); ids and the index are reconstructible and not
persisted. -/
def save (cap : Nat) (h : ClipboardHistory) : Option DiskFile :=
  some { schemaVersion := supportedSchemaVersion,
         records := h.entries.map (fun e => DiskRecord.ok (encodeItem cap e)) }

/-- Decoding of one raw record; corrupt records yield none and are skipped. -/
def decodeRecord : DiskRecord → Option PersistedRecord
  | .ok r => some r
  | .corrupt => none

/-- Rebuild items from persisted records, reallocating ids downward from
the front so that id allocation resumes above the highest assigned value. -/
def rebuildItems : Nat → List PersistedRecord → List ClipboardItem
  | _, [] => []
  | n, r :: rs =>
      { id := n, content := r.content, contentHash := hashOf r.content,
        createdAt := r.createdAt, lastSeenAt := r.lastSeenAt,
        pinned := r.pinned } :: rebuildItems (n - 1) rs

/-- Modelled from the spec: load reads the on-disk representation; a
missing or unreadable file, or an unsupported schema version, yields an
empty history instead of a startup failure; corrupt records are skipped
while the remaining records are loaded in order. -/
def load (cap : Nat) : Option DiskFile → ClipboardHistory
  | none => emptyHistory cap
  | some f =>
      if f.schemaVersion == supportedSchemaVersion then
        let recs := f.records.filterMap decodeRecord
        { entries := rebuildItems recs.length recs,
          capacity := cap, nextId := recs.length + 1 }
      else emptyHistory cap

lemma rebuildItems_map (n : Nat) (rs : List PersistedRecord) :
    (rebuildItems n rs).map (fun e => (e.content, e.pinned, e.createdAt,
      e.lastSeenAt)) =
      rs.map (fun r => (r.content, r.pinned, r.createdAt, r.lastSeenAt)) := by
  induction rs generalizing n with
  | nil => rfl
  | cons r rs ih => simp [rebuildItems, ih]

/-- C5: persistence round-trip. Saving a history and loading it back yields
the original history's logical content: entry for entry, in the same
relative order, each loaded entry carries the pin flag and timestamps of
the original, and its content is the original content up to the
persisted-size truncation of oversized (image) payloads. -/
theorem c5_persistence_roundtrip (cap pcap : Nat) (h : ClipboardHistory) :
    (load cap (save pcap h)).entries.map
        (fun e => (e.content, e.pinned, e.createdAt, e.lastSeenAt)) =
      h.entries.map
        (fun e => (persistContent pcap e.content, e.pinned, e.createdAt,
          e.lastSeenAt)) := by
  unfold load save
  simp only [beq_self_eq_true, if_pos, List.filterMap_map]
  have hfm : (decodeRecord ∘ fun e : ClipboardItem =>
      DiskRecord.ok (encodeItem pcap e)) =
      some ∘ encodeItem pcap := rfl
  rw [hfm, List.filterMap_eq_map, rebuildItems_map, List.map_map]
  rfl

/-- Witness for c5_persistence_roundtrip at the concrete store c4Store with
a persisted-size cap of 8 bytes. -/
theorem c5_persistence_roundtrip_witness :
    (load c4Store.capacity (save 8 c4Store)).entries.map
        (fun e => (e.content, e.pinned, e.createdAt, e.lastSeenAt)) =
      c4Store.entries.map
        (fun e => (persistContent 8 e.content, e.pinned, e.createdAt,
          e.lastSeenAt)) :=
  c5_persistence_roundtrip c4Store.capacity 8 c4Store

/-- C6: load never fails. A missing file yields the empty history; any
unsupported schema version, in particular one greater than the supported
one, yields the empty history rather than a startup failure; a corrupt
record is skipped while the remaining records are still loaded. -/
theorem c6_load_never_fails (cap : Nat) :
    load cap none = emptyHistory cap ∧
    (∀ f : DiskFile, f.schemaVersion ≠ supportedSchemaVersion →
      load cap (some f) = emptyHistory cap) ∧
    (∀ rs : List DiskRecord,
      load cap (some (DiskFile.mk (supportedSchemaVersion + 1) rs)) =
        emptyHistory cap) ∧
    (∀ v rs, load cap (some (DiskFile.mk v (DiskRecord.corrupt :: rs))) =
      load cap (some (DiskFile.mk v rs))) := by
  refine ⟨rfl, ?_, ?_, ?_⟩
  · intro f hv
    have : (f.schemaVersion == supportedSchemaVersion) = false := by
      simp [hv]
    simp [load, this]
  · intro rs
    simp [load]
  · intro v rs
    by_cases hv : v = supportedSchemaVersion
    · subst hv
      simp [load, decodeRecord]
    · have : (v == supportedSchemaVersion) = false := by simp [hv]
      simp [load, this]

/-- Witness for c6_load_never_fails: a file with schema version 2 (one more
than supported) and no records loads as the empty history with capacity 3. -/
theorem c6_load_never_fails_witness :
    load 3 (some (DiskFile.mk 2 [])) = emptyHistory 3 ∧
    load 3 none = emptyHistory 3 := by
  have H := c6_load_never_fails 3
  exact ⟨H.2.1 (DiskFile.mk 2 []) (by decide), H.1⟩

/-! Configuration types, embedded from src/config/types.rs. -/

/-- Modules enum from src/config/types.rs: configurable components of the
launcher. -/
inductive ConfigModule where
  | applications
  | ai
  | emojis
  | calculator
  | clipboard
  | actions
  | search
  | themes
  | windows
deriving DecidableEq, Repr

/-- Launcher modes from src/config/types.rs: determines what view is shown. -/
inductive LauncherMode where
  | combined
  | applications
  | ai
  | emojis
  | calculator
  | clipboard
  | actions
  | search
  | themes
  | windows
deriving DecidableEq, Repr

/-- Embedded from LauncherMode::from_module (src/config/types.rs:192-205):
convert a ConfigModule to a LauncherMode. -/
def LauncherMode.from_module : ConfigModule → LauncherMode
  | ConfigModule.applications => LauncherMode.applications
  | ConfigModule.ai => LauncherMode.ai
  | ConfigModule.emojis => LauncherMode.emojis
  | ConfigModule.calculator => LauncherMode.calculator
  | ConfigModule.clipboard => LauncherMode.clipboard
  | ConfigModule.actions => LauncherMode.actions
  | ConfigModule.search => LauncherMode.search
  | ConfigModule.themes => LauncherMode.themes
  | ConfigModule.windows => LauncherMode.windows

/-- Embedded from LauncherMode::to_module (src/config/types.rs:207-221):
convert back to ConfigModule (none for Combined). -/
def LauncherMode.to_module : LauncherMode → Option ConfigModule
  | LauncherMode.combined => none
  | LauncherMode.applications => some ConfigModule.applications
  | LauncherMode.ai => some ConfigModule.ai
  | LauncherMode.emojis => some ConfigModule.emojis
  | LauncherMode.calculator => some ConfigModule.calculator
  | LauncherMode.clipboard => some ConfigModule.clipboard
  | LauncherMode.actions => some ConfigModule.actions
  | LauncherMode.search => some ConfigModule.search
  | LauncherMode.themes => some ConfigModule.themes
  | LauncherMode.windows => some ConfigModule.windows

/-- C8: round-trip between LauncherMode and ConfigModule. For every
ConfigModule m, from_module m followed by to_module yields some m, and
to_module returns none exactly for Combined. -/
theorem c8_mode_module_roundtrip :
    (∀ m : ConfigModule, (LauncherMode.from_module m).to_module = some m) ∧
    (∀ mo : LauncherMode, mo.to_module = none ↔ mo = LauncherMode.combined) := by
  constructor
  · intro m
    cases m <;> rfl
  · intro mo
    cases mo <;> simp [LauncherMode.to_module]

/-- Witness for c8_mode_module_roundtrip at the concrete module Ai and the
concrete mode Combined. -/
theorem c8_mode_module_roundtrip_witness :
    (LauncherMode.from_module ConfigModule.ai).to_module =
        some ConfigModule.ai ∧
      LauncherMode.combined.to_module = none :=
  ⟨c8_mode_module_roundtrip.1 ConfigModule.ai,
    (c8_mode_module_roundtrip.2 LauncherMode.combined).mpr rfl⟩

/-! AI response view, embedded from src/ui/views/ai_view.rs. The ChatMessage
type comes from the external llm crate; it is modelled by the two fields the
view uses, role and content, with roles User and Assistant. -/

/-- Chat roles used by the view (llm::chat::ChatRole). -/
inductive ChatRole where
  | user
  | assistant
deriving DecidableEq, Repr

/-- Chat message as used by the view (llm::chat::ChatMessage): a role and a
text content, built via ChatMessage::user()/assistant().content(..).build(). -/
structure ChatMessage where
  role : ChatRole
  content : String
deriving DecidableEq, Repr

/-- Embedded from src/ui/views/ai_view.rs: the view state for a streaming
AI response: the exchanged messages, the streaming flag and an optional
error message (the render method is UI glue and out of scope). -/
structure AiResponseView where
  messages : List ChatMessage
  isStreaming : Bool
  error : Option String
deriving DecidableEq, Repr

/-- Embedded from AiResponseView::new (ai_view.rs:22-31): a user message
holding the query followed by an empty assistant message; streaming on. -/
def AiResponseView.new (query : String) : AiResponseView :=
  { messages := [{ role := ChatRole.user, content := query },
                 { role := ChatRole.assistant, content := "" }],
    isStreaming := true,
    error := none }

/-- Append a token to the content of the last message of a list, leaving
the rest unchanged (self.messages.last_mut() followed by push_str). -/
def updateLastContent : List ChatMessage → String → List ChatMessage
  | [], _ => []
  | [m], t => [{ m with content := m.content ++ t }]
  | m :: m2 :: ms, t => m :: updateLastContent (m2 :: ms) t

/-- Embedded from AiResponseView::append_token (ai_view.rs:34-36): appends
the token to the latest message via self.messages.last_mut().unwrap();
the unwrap panics exactly when messages is empty, modelled by none. -/
def AiResponseView.append_token (v : AiResponseView) (t : String) :
    Option AiResponseView :=
  match v.messages with
  | [] => none
  | _ :: _ => some { v with messages := updateLastContent v.messages t }

/-- Embedded from AiResponseView::finish_streaming (ai_view.rs:39-41). -/
def AiResponseView.finish_streaming (v : AiResponseView) : AiResponseView :=
  { v with isStreaming := false }

/-- Embedded from AiResponseView::add_user_message (ai_view.rs:44-49):
pushes a user message with the given text, then an empty assistant
message. -/
def AiResponseView.add_user_message (v : AiResponseView) (m : String) :
    AiResponseView :=
  { v with messages := v.messages ++
      [{ role := ChatRole.user, content := m },
       { role := ChatRole.assistant, content := "" }] }

/-- Embedded from AiResponseView::set_error (ai_view.rs:52-55). -/
def AiResponseView.set_error (v : AiResponseView) (e : String) :
    AiResponseView :=
  { v with error := some e, isStreaming := false }

/-- Views reachable through the public interface: created by new, then any
sequence of append_token (when it does not panic), finish_streaming,
add_user_message and set_error. -/
inductive AiReachable : AiResponseView → Prop
  | new (q : String) : AiReachable (AiResponseView.new q)
  | append {v v' : AiResponseView} (t : String) : AiReachable v →
      v.append_token t = some v' → AiReachable v'
  | finish {v : AiResponseView} : AiReachable v →
      AiReachable v.finish_streaming
  | userMsg {v : AiResponseView} (m : String) : AiReachable v →
      AiReachable (v.add_user_message m)
  | err {v : AiResponseView} (e : String) : AiReachable v →
      AiReachable (v.set_error e)

/-- Structural invariant of the view: the message list ends with an
assistant message (in particular it is non-empty). -/
def EndsWithAssistant (l : List ChatMessage) : Prop :=
  ∃ ms m, l = ms ++ [m] ∧ m.role = ChatRole.assistant

lemma updateLastContent_append (ms : List ChatMessage) (m : ChatMessage)
    (t : String) :
    updateLastContent (ms ++ [m]) t =
      ms ++ [{ m with content := m.content ++ t }] := by
  induction ms with
  | nil => rfl
  | cons x xs ih =>
    cases xs with
    | nil => rfl
    | cons y ys =>
      simp only [List.cons_append] at ih ⊢
      rw [updateLastContent, ih]

lemma endsWithAssistant_updateLastContent (l : List ChatMessage) (t : String)
    (hl : EndsWithAssistant l) : EndsWithAssistant (updateLastContent l t) := by
  rcases hl with ⟨ms, m, rfl, hrole⟩
  exact ⟨ms, { m with content := m.content ++ t },
    updateLastContent_append ms m t, hrole⟩

lemma aiReachable_endsWithAssistant {v : AiResponseView}
    (hr : AiReachable v) : EndsWithAssistant v.messages := by
  induction hr with
  | new q =>
    exact ⟨[{ role := ChatRole.user, content := q }],
      { role := ChatRole.assistant, content := "" }, rfl, rfl⟩
  | append t hv happ ih =>
    rename_i v v'
    rcases ih with ⟨ms, m, hmsg, hrole⟩
    have hne : v.messages ≠ [] := by
      rw [hmsg]
      exact List.append_ne_nil_of_right_ne_nil _ (by simp)
    unfold AiResponseView.append_token at happ
    rcases hcase : v.messages with _ | ⟨x, xs⟩
    · exact absurd hcase hne
    · rw [hcase] at happ
      simp only [Option.some.injEq] at happ
      rw [← happ]
      simp only
      rw [← hcase]
      exact endsWithAssistant_updateLastContent _ t ⟨ms, m, hmsg, hrole⟩
  | finish hv ih => exact ih
  | userMsg m hv ih =>
    rename_i v
    refine ⟨v.messages ++ [{ role := ChatRole.user, content := m }],
      { role := ChatRole.assistant, content := "" }, ?_, rfl⟩
    simp [AiResponseView.add_user_message]
  | err e hv ih => exact ih

/-- C9: AiResponseView non-empty-messages invariant. Every view reachable
through the public interface (new followed by any sequence of append_token,
finish_streaming, add_user_message, set_error) has a non-empty message list
ending with an assistant message, so append_token, whose unwrap of
last_mut() panics exactly on an empty list, always succeeds on a reachable
view. -/
theorem c9_ai_view_invariant (v : AiResponseView) (hr : AiReachable v) :
    v.messages ≠ [] ∧
    (∃ ms m, v.messages = ms ++ [m] ∧ m.role = ChatRole.assistant) ∧
    (∀ t : String, (v.append_token t).isSome) := by
  have hinv := aiReachable_endsWithAssistant hr
  rcases hinv with ⟨ms, m, hmsg, hrole⟩
  have hne : v.messages ≠ [] := by
    rw [hmsg]
    exact List.append_ne_nil_of_right_ne_nil _ (by simp)
  refine ⟨hne, ⟨ms, m, hmsg, hrole⟩, ?_⟩
  intro t
  unfold AiResponseView.append_token
  rcases hcase : v.messages with _ | ⟨x, xs⟩
  · exact absurd hcase hne
  · simp

/-- Witness for c9_ai_view_invariant: the freshly created view for the
query "hi" is reachable, its message list is non-empty, and append_token
succeeds on it. -/
theorem c9_ai_view_invariant_witness :
    (AiResponseView.new "hi").messages ≠ [] ∧
    (∀ t : String, ((AiResponseView.new "hi").append_token t).isSome) := by
  have H := c9_ai_view_invariant (AiResponseView.new "hi") (AiReachable.new "hi")
  exact ⟨H.1, H.2.2⟩

/-! Configuration validation, embedded from src/config/validation.rs and the
AppConfig types of src/config/types.rs. Launcher and window dimensions are
f32 in the source; all compared bounds and defaults are small integral
values exactly representable, embedded as rationals. -/

/-- Embedded from ConfigSearchProvider (src/config/types.rs): name, trigger
(e.g. "!br"), url containing the query placeholder, optional icon name. -/
structure ConfigSearchProvider where
  name : String
  trigger : String
  url : String
  icon : String
deriving DecidableEq, Repr

/-- Embedded from AppConfig (src/config/types.rs); the HashSet of disabled
modules is modelled as a list, which the validation never reads. -/
structure AppConfig where
  theme : String
  launcher_size : Option (ℚ × ℚ)
  window_size : Option (ℚ × ℚ)
  enable_backdrop : Bool
  hyprland_auto_blur : Bool
  disabled_modules : Option (List ConfigModule)
  enable_transparency : Bool
  search_providers : Option (List ConfigSearchProvider)
  default_modes : Option (List String)
  combined_modules : Option (List ConfigModule)

/-- Embedded from AppConfig::get_launcher_size: the launcher panel size,
(600, 400) if not configured. -/
def AppConfig.get_launcher_size (c : AppConfig) : ℚ × ℚ :=
  c.launcher_size.getD (600, 400)

/-- Embedded from impl Default for AppConfig (src/config/types.rs:61-101):
theme "default", no explicit sizes, backdrop and transparency on, and the
four built-in search providers. -/
def AppConfig.default : AppConfig :=
  { theme := "default",
    launcher_size := none,
    window_size := none,
    enable_backdrop := true,
    hyprland_auto_blur := true,
    disabled_modules := none,
    enable_transparency := true,
    search_providers := some
      [{ name := "Google", trigger := "!g",
         url := "https://www.google.com/search?q=\x7bquery\x7d",
         icon := "magnifying-glass" },
       { name := "DuckDuckGo", trigger := "!d",
         url := "https://duckduckgo.com/?q=\x7bquery\x7d",
         icon := "globe" },
       { name := "Wikipedia", trigger := "!wiki",
         url := "https://en.wikipedia.org/wiki/Special:Search?search=\x7bquery\x7d",
         icon := "book-open" },
       { name := "YouTube", trigger := "!yt",
         url := "https://www.youtube.com/results?search_query=\x7bquery\x7d",
         icon := "youtube-logo" }],
    default_modes := none,
    combined_modules := none }

/-- Embedded from ValidationWarning (src/config/validation.rs): a non-fatal
validation warning naming the offending field. -/
structure ValidationWarning where
  field : String
  message : String
deriving DecidableEq, Repr

/-- Substring containment, Rust str::contains: some suffix of s starts with
pat. -/
def strContainsSub (s pat : String) : Bool :=
  s.data.tails.any (fun t => pat.data.isPrefixOf t)

/-- Prefix test, Rust str::starts_with. -/
def strStartsWith (s pre : String) : Bool :=
  pre.data.isPrefixOf s.data

/-- Embedded from validate_search_provider (src/config/validation.rs):
warnings for a URL missing the query placeholder, a URL without an
http(s) scheme, an unconventional trigger, and an overlong trigger (the
Rust len() is the UTF-8 byte length). -/
def validate_search_provider (provider : ConfigSearchProvider) :
    List ValidationWarning :=
  let n := provider.name
  let tr := provider.trigger
  (if !(strContainsSub provider.url "\x7bquery\x7d") then
    [{ field := s!"search_providers.{n}.url",
       message := s!"URL for {n} must contain \x7bquery\x7d placeholder. Search will not work correctly." }]
   else []) ++
  (if !(strStartsWith provider.url "http://") &&
      !(strStartsWith provider.url "https://") then
    [{ field := s!"search_providers.{n}.url",
       message := s!"URL for {n} should start with http:// or https://" }]
   else []) ++
  (if !provider.trigger.isEmpty && !(strStartsWith provider.trigger "!") &&
      !(strStartsWith provider.trigger ":") then
    [{ field := s!"search_providers.{n}.trigger",
       message := s!"Trigger {tr} for {n} does not start with ! or :. This is allowed but unconventional." }]
   else []) ++
  (if 10 < provider.trigger.utf8ByteSize then
    [{ field := s!"search_providers.{n}.trigger",
       message := s!"Trigger {tr} is quite long. Shorter triggers are easier to type." }]
   else [])

/-- Embedded from validate_config (src/config/validation.rs:24-110).
The theme-existence lookup (validate_theme_name, which reads the installed
themes via theme_loader::list_themes, a file not present under src/) is
passed in as the predicate themeExists; the claims below hold for every
such predicate. Checks run in source order: launcher width, launcher
height, search providers, theme (skipped for "" and "default"), and
window_size (only when the backdrop is enabled). -/
def validate_config (themeExists : String → Bool) (config : AppConfig) :
    List ValidationWarning :=
  let lsize := config.get_launcher_size
  let lw := lsize.1
  let lh := lsize.2
  let th := config.theme
  (if lw < 300 then
    [{ field := "launcher_size",
       message := s!"Width {lw} is below minimum (300). Consider increasing for usability." }]
   else if lw > 2000 then
    [{ field := "launcher_size",
       message := s!"Width {lw} exceeds maximum (2000). This may cause display issues." }]
   else []) ++
  (if lh < 200 then
    [{ field := "launcher_size",
       message := s!"Height {lh} is below minimum (200). Consider increasing for usability." }]
   else if lh > 1500 then
    [{ field := "launcher_size",
       message := s!"Height {lh} exceeds maximum (1500). This may cause display issues." }]
   else []) ++
  (match config.search_providers with
   | some providers => providers.flatMap validate_search_provider
   | none => []) ++
  (if !config.theme.isEmpty && config.theme != "default" &&
      !themeExists config.theme then
    [{ field := "theme",
       message := s!"Theme {th} not found. Will fall back to default theme." }]
   else []) ++
  (if config.enable_backdrop then
    match config.window_size with
    | some wh =>
      (if wh.1 < lw then
        [{ field := "window_size",
           message := s!"window_size width is smaller than launcher_size width. Will use the launcher width." }]
       else []) ++
      (if wh.2 < lh then
        [{ field := "window_size",
           message := s!"window_size height is smaller than launcher_size height. Will use the launcher height." }]
       else [])
    | none => []
   else [])

/-- C10: the default configuration validates cleanly for every
theme-existence predicate: validate_config returns no warnings on
AppConfig::default. The default launcher size is (600, 400), within range;
the default theme string is "default", which skips the theme-existence
check; window_size is None; and every default search provider has a URL
containing the query placeholder and starting with https://, and a trigger
starting with the character ! of byte length at most 10. -/
theorem c10_default_config_validates (themeExists : String → Bool) :
    validate_config themeExists AppConfig.default = [] ∧
    AppConfig.default.get_launcher_size = (600, 400) ∧
    AppConfig.default.theme = "default" ∧
    AppConfig.default.window_size = none ∧
    (AppConfig.default.search_providers.getD []).all
      (fun p => strContainsSub p.url "\x7bquery\x7d" &&
        strStartsWith p.url "https://" && strStartsWith p.trigger "!" &&
        decide (p.trigger.utf8ByteSize ≤ 10)) = true := by
  refine ⟨?_, rfl, rfl, rfl, by decide⟩
  rfl

/-- Witness for c10_default_config_validates at the concrete predicate that
knows no themes. -/
theorem c10_default_config_validates_witness :
    validate_config (fun _ => false) AppConfig.default = [] :=
  (c10_default_config_validates (fun _ => false)).1

end ZLaunch
